import Mathlib

/-!
# Verification of `sql-patch` (`src/index.ts`, `executePatches`)

Shallow embedding of the patch applicator.  The external collaborators
(filesystem and database client) are modelled by an `Env` of response
oracles; the bookkeeping table is an explicit list of rows threaded
through the run; every call made to a collaborator is recorded in an
event trace.  `executePatches` mirrors the source function step by step:
create the bookkeeping table if it does not exist, list the patches
directory, select all bookkeeping rows, filter directory entries to
`.sql` files not already applied, sort them, and then run the
read-file / execute-SQL / insert-row loop, forwarding the first error
to the callback.
-/

/-- Row of the bookkeeping table (interface `PatchRow` in `src/index.ts`).
The `applied` timestamp is abstracted to a `Nat` supplied by the database
at insertion time. -/
structure PatchRow where
  filename : String
  applied : Nat
deriving Repr, DecidableEq

/-- Structural rendering of one column definition handed to
`db.CreateTable(...).add(...)` in the source. -/
structure ColumnDef where
  name : String
  sqlType : String
  notNull : Bool
  defaultValue : Option String
deriving Repr, DecidableEq

/-- Column `'filename TEXT NOT NULL'` from the source. -/
def filenameColumn : ColumnDef :=
  { name := "filename", sqlType := "TEXT", notNull := true, defaultValue := none }

/-- Column `'applied TIMESTAMP DEFAULT current_timestamp NOT NULL'` from the source. -/
def appliedColumn : ColumnDef :=
  { name := "applied", sqlType := "TIMESTAMP", notNull := true,
    defaultValue := some "current_timestamp" }

/-- One call made to a collaborator during a run: the `CreateTable`,
`readdir`, `Select`, `readFile`, `executeSQL` and `Insert` calls of the
source, with the arguments of the call.  The `executeSQL` event records
the loop's current filename together with the contents passed to the
database. -/
inductive Event where
  | createTable (ifNotExists : Bool) (columns : List ColumnDef)
  | readdir
  | select
  | readFile (filename : String)
  | executeSQL (filename : String) (contents : String)
  | insert (filename : String)
deriving Repr, DecidableEq

/-- Errors produced by the collaborators are opaque values; the source
never inspects them, it only forwards them. -/
abbrev Err := String

/-- Responses of the filesystem and of the database client, fixed for one
run ("stable directory"): the result of `CreateTable`, of `readdir`, of
`Select` (the rows themselves come from the table state), the contents of
each file, the outcome of `executeSQL` per SQL text, the outcome of
`Insert` per filename, and the timestamp the database assigns to the
`applied` column. -/
structure Env where
  createTableErr : Option Err
  readdirResult : Except Err (List String)
  selectErr : Option Err
  fileContents : String → Except Err String
  execSQL : String → Option Err
  insertErr : String → Option Err
  timestamp : Nat

/-- The two arguments of the source's callback
`(error: Error, filenames?: string[]) => void`: every error path calls
`callback(err)` with the `filenames` argument absent, the success path
calls `callback(null, newly_applied_filenames)`. -/
structure CallbackArgs where
  error : Option Err
  filenames : Option (List String)
deriving Repr, DecidableEq

/-- Everything observable about one invocation: the callback arguments,
the final bookkeeping-table state, and the trace of collaborator calls. -/
structure RunResult where
  result : CallbackArgs
  table : List PatchRow
  trace : List Event
deriving Repr, DecidableEq

/-- Projection `patches.map(patch => patch.filename)` from the source. -/
def appliedFilenames (table : List PatchRow) : List String :=
  table.map (·.filename)

/-- The regex test `filename.match(/\.sql$/)` of the source: the filename,
as a sequence of characters, ends with the case-sensitive suffix `.sql`. -/
def matchesSql (filename : String) : Bool :=
  List.isSuffixOf ".sql".data filename.data

/-- Character-wise lexicographic `≤` on character lists: the comparison
JavaScript's default `Array.prototype.sort()` applies to strings. -/
def lexLe : List Char → List Char → Bool
  | [], _ => true
  | _ :: _, [] => false
  | a :: as, b :: bs => if a < b then true else if b < a then false else lexLe as bs

/-- Lexicographic (character-code ascending) `≤` on strings. -/
def strLe (a b : String) : Bool :=
  lexLe a.data b.data

/-- The filter and sort of the source:
`filenames.filter(f => applied.indexOf(f) === -1 && f.match(/\.sql$/)).sort()`.
JavaScript's default `sort()` compares strings lexicographically,
modelled by `List.insertionSort` under `strLe`. -/
def unappliedFilenames (listing : List String) (table : List PatchRow) : List String :=
  List.insertionSort (fun a b => strLe a b = true)
    (listing.filter fun filename =>
      !(appliedFilenames table).contains filename && matchesSql filename)

/-- The inner `loop()` of the source: take the next unapplied filename;
if none are left call the callback with the accumulated list; otherwise
read the file, execute its contents as SQL, insert the bookkeeping row,
and recurse, forwarding the first error to the callback. -/
def patchLoop (env : Env) (pending : List String) (table : List PatchRow)
    (newly : List String) (tr : List Event) : RunResult :=
  match pending with
  | [] => ⟨⟨none, some newly⟩, table, tr⟩
  | unapplied_filename :: rest =>
    let tr₁ := tr ++ [Event.readFile unapplied_filename]
    match env.fileContents unapplied_filename with
    | .error e => ⟨⟨some e, none⟩, table, tr₁⟩
    | .ok file_contents =>
      let tr₂ := tr₁ ++ [Event.executeSQL unapplied_filename file_contents]
      match env.execSQL file_contents with
      | some e => ⟨⟨some e, none⟩, table, tr₂⟩
      | none =>
        let tr₃ := tr₂ ++ [Event.insert unapplied_filename]
        match env.insertErr unapplied_filename with
        | some e => ⟨⟨some e, none⟩, table, tr₃⟩
        | none =>
          patchLoop env rest (table ++ [⟨unapplied_filename, env.timestamp⟩])
            (newly ++ [unapplied_filename]) tr₃

/-- Function `executePatches` from `src/index.ts`.  The bookkeeping-table name and
directory path are implicit in `Env` (all lookups are by filename, as in
the source, where the path is only used via `join(patches_dirpath, f)`).
Patch SQL is assumed not to touch the bookkeeping table itself, so the
table state is modified only by the `Insert` calls. -/
def executePatches (env : Env) (table : List PatchRow) : RunResult :=
  let tr₀ := [Event.createTable true [filenameColumn, appliedColumn]]
  match env.createTableErr with
  | some e => ⟨⟨some e, none⟩, table, tr₀⟩
  | none =>
    let tr₁ := tr₀ ++ [Event.readdir]
    match env.readdirResult with
    | .error e => ⟨⟨some e, none⟩, table, tr₁⟩
    | .ok filenames =>
      let tr₂ := tr₁ ++ [Event.select]
      match env.selectErr with
      | some e => ⟨⟨some e, none⟩, table, tr₂⟩
      | none =>
        patchLoop env (unappliedFilenames filenames table) table [] tr₂

/-- The three events every run that reaches the loop has issued. -/
def preTrace : List Event :=
  [Event.createTable true [filenameColumn, appliedColumn], Event.readdir, Event.select]

/-- Contents of file `f` when the read succeeds (and `""` otherwise,
never used on a failing read). -/
def contentsOf (env : Env) (f : String) : String :=
  match env.fileContents f with
  | .ok c => c
  | .error _ => ""

/-- All three steps of the loop body succeed for file `f`. -/
def stepOk (env : Env) (f : String) : Bool :=
  match env.fileContents f with
  | .error _ => false
  | .ok c => (env.execSQL c).isNone && (env.insertErr f).isNone

/-- The row the loop inserts for file `f`. -/
def appliedRow (env : Env) (f : String) : PatchRow :=
  ⟨f, env.timestamp⟩

/-- The events of one fully successful loop iteration on file `f`. -/
def okEvents (env : Env) (f : String) : List Event :=
  [Event.readFile f, Event.executeSQL f (contentsOf env f), Event.insert f]

/-- The error forwarded to the callback when the loop body fails on `f`. -/
def stepErr (env : Env) (f : String) : Err :=
  match env.fileContents f with
  | .error e => e
  | .ok c =>
    match env.execSQL c with
    | some e => e
    | none => (env.insertErr f).getD ""

/-- The events of a loop iteration that fails on file `f`. -/
def failEvents (env : Env) (f : String) : List Event :=
  match env.fileContents f with
  | .error _ => [Event.readFile f]
  | .ok c =>
    match env.execSQL c with
    | some _ => [Event.readFile f, Event.executeSQL f c]
    | none => [Event.readFile f, Event.executeSQL f c, Event.insert f]

/-! ## Auxiliary lemmas about the loop -/

theorem mem_unappliedFilenames {listing : List String} {table : List PatchRow} {f : String} :
    f ∈ unappliedFilenames listing table ↔
      f ∈ listing ∧ f ∉ appliedFilenames table ∧ matchesSql f = true := by
  simp [unappliedFilenames, List.mem_insertionSort, List.mem_filter, and_assoc]

theorem executePatches_eq_loop (env : Env) (table : List PatchRow) (listing : List String)
    (h1 : env.createTableErr = none) (h2 : env.readdirResult = .ok listing)
    (h3 : env.selectErr = none) :
    executePatches env table =
      patchLoop env (unappliedFilenames listing table) table [] preTrace := by
  simp [executePatches, h1, h2, h3, preTrace]

theorem patchLoop_ok (env : Env) (pending : List String)
    (h : ∀ f ∈ pending, stepOk env f = true) (table : List PatchRow)
    (newly : List String) (tr : List Event) :
    patchLoop env pending table newly tr =
      ⟨⟨none, some (newly ++ pending)⟩,
       table ++ pending.map (appliedRow env),
       tr ++ pending.flatMap (okEvents env)⟩ := by
  induction pending generalizing table newly tr with
  | nil => simp [patchLoop]
  | cons f rest ih =>
    have hf := h f (List.mem_cons_self f rest)
    have hrest : ∀ g ∈ rest, stepOk env g = true := fun g hg => h g (List.mem_cons_of_mem f hg)
    cases hc : env.fileContents f with
    | error e => simp [stepOk, hc] at hf
    | ok c =>
      rw [stepOk, hc] at hf
      rw [Bool.and_eq_true, Option.isNone_iff_eq_none, Option.isNone_iff_eq_none] at hf
      obtain ⟨hexec, hins⟩ := hf
      simp only [patchLoop, hc, hexec, hins, ih hrest]
      simp [okEvents, contentsOf, appliedRow, hc]

theorem patchLoop_all_ok (env : Env) (pending : List String) (table : List PatchRow)
    (newly : List String) (tr : List Event)
    (h : (patchLoop env pending table newly tr).result.error = none) :
    ∀ f ∈ pending, stepOk env f = true := by
  induction pending generalizing table newly tr with
  | nil => intro f hf; cases hf
  | cons f rest ih =>
    intro g hg
    cases hc : env.fileContents f with
    | error e => simp only [patchLoop, hc] at h; cases h
    | ok c =>
      cases hexec : env.execSQL c with
      | some e => simp only [patchLoop, hc, hexec] at h; cases h
      | none =>
        cases hins : env.insertErr f with
        | some e => simp only [patchLoop, hc, hexec, hins] at h; cases h
        | none =>
          simp only [patchLoop, hc, hexec, hins] at h
          rcases List.mem_cons.mp hg with hgf | hgr
          · subst hgf
            simp [stepOk, hc, hexec, hins]
          · exact ih _ _ _ h g hgr

theorem patchLoop_ok_cons (env : Env) (f : String) (rest : List String)
    (hok : stepOk env f = true) (table : List PatchRow)
    (newly : List String) (tr : List Event) :
    patchLoop env (f :: rest) table newly tr =
      patchLoop env rest (table ++ [appliedRow env f]) (newly ++ [f])
        (tr ++ okEvents env f) := by
  cases hc : env.fileContents f with
  | error e => simp [stepOk, hc] at hok
  | ok c =>
    rw [stepOk, hc] at hok
    rw [Bool.and_eq_true, Option.isNone_iff_eq_none, Option.isNone_iff_eq_none] at hok
    obtain ⟨hexec, hins⟩ := hok
    simp only [patchLoop, hc, hexec, hins]
    simp [okEvents, contentsOf, appliedRow, hc]

theorem patchLoop_fail_cons (env : Env) (f : String) (post : List String)
    (hf : stepOk env f = false) (table : List PatchRow)
    (newly : List String) (tr : List Event) :
    patchLoop env (f :: post) table newly tr =
      ⟨⟨some (stepErr env f), none⟩, table, tr ++ failEvents env f⟩ := by
  cases hc : env.fileContents f with
  | error e => simp [patchLoop, stepErr, failEvents, hc]
  | ok c =>
    cases hexec : env.execSQL c with
    | some e => simp [patchLoop, stepErr, failEvents, hc, hexec]
    | none =>
      cases hins : env.insertErr f with
      | some e => simp [patchLoop, stepErr, failEvents, hc, hexec, hins]
      | none => simp [stepOk, hc, hexec, hins] at hf

theorem patchLoop_fail (env : Env) (pre : List String) (f : String) (post : List String)
    (hpre : ∀ g ∈ pre, stepOk env g = true) (hf : stepOk env f = false)
    (table : List PatchRow) (newly : List String) (tr : List Event) :
    patchLoop env (pre ++ f :: post) table newly tr =
      ⟨⟨some (stepErr env f), none⟩,
       table ++ pre.map (appliedRow env),
       tr ++ pre.flatMap (okEvents env) ++ failEvents env f⟩ := by
  induction pre generalizing table newly tr with
  | nil => simp [patchLoop_fail_cons env f post hf]
  | cons g rest ih =>
    have hg := hpre g (List.mem_cons_self g rest)
    have hrest : ∀ g' ∈ rest, stepOk env g' = true :=
      fun g' hg' => hpre g' (List.mem_cons_of_mem g hg')
    rw [List.cons_append, patchLoop_ok_cons env g _ hg, ih hrest]
    simp

/-- The events the loop appends to the trace, computed from the pending
list alone: full iteration blocks until the first failing file. -/
def runTraceAux (env : Env) : List String → List Event
  | [] => []
  | f :: rest =>
    if stepOk env f then okEvents env f ++ runTraceAux env rest else failEvents env f

/-- The rows the loop appends to the bookkeeping table: one per fully
successful iteration before the first failing file. -/
def runRowsAux (env : Env) : List String → List PatchRow
  | [] => []
  | f :: rest =>
    if stepOk env f then appliedRow env f :: runRowsAux env rest else []

theorem patchLoop_trace_eq (env : Env) (pending : List String) (table : List PatchRow)
    (newly : List String) (tr : List Event) :
    (patchLoop env pending table newly tr).trace = tr ++ runTraceAux env pending := by
  induction pending generalizing table newly tr with
  | nil => simp [patchLoop, runTraceAux]
  | cons f rest ih =>
    cases hok : stepOk env f with
    | true => rw [patchLoop_ok_cons env f rest hok, ih, runTraceAux]; simp [hok]
    | false => rw [patchLoop_fail_cons env f rest hok, runTraceAux]; simp [hok]

theorem patchLoop_table_eq (env : Env) (pending : List String) (table : List PatchRow)
    (newly : List String) (tr : List Event) :
    (patchLoop env pending table newly tr).table = table ++ runRowsAux env pending := by
  induction pending generalizing table newly tr with
  | nil => simp [patchLoop, runRowsAux]
  | cons f rest ih =>
    cases hok : stepOk env f with
    | true => rw [patchLoop_ok_cons env f rest hok, ih, runRowsAux]; simp [hok, appliedRow]
    | false => rw [patchLoop_fail_cons env f rest hok, runRowsAux]; simp [hok]

theorem mem_okEvents {env : Env} {f : String} {ev : Event} (h : ev ∈ okEvents env f) :
    ev = Event.readFile f ∨ (∃ c, ev = Event.executeSQL f c) ∨ ev = Event.insert f := by
  simp only [okEvents, List.mem_cons, List.not_mem_nil, or_false] at h
  rcases h with h | h | h
  · exact Or.inl h
  · exact Or.inr (Or.inl ⟨contentsOf env f, h⟩)
  · exact Or.inr (Or.inr h)

theorem mem_failEvents {env : Env} {f : String} {ev : Event} (h : ev ∈ failEvents env f) :
    ev = Event.readFile f ∨ (∃ c, ev = Event.executeSQL f c) ∨ ev = Event.insert f := by
  rw [failEvents] at h
  cases hc : env.fileContents f with
  | error e =>
    simp only [hc, List.mem_cons, List.not_mem_nil, or_false] at h
    exact Or.inl h
  | ok c =>
    simp only [hc] at h
    cases hexec : env.execSQL c with
    | some e =>
      simp only [hexec, List.mem_cons, List.not_mem_nil, or_false] at h
      rcases h with h | h
      · exact Or.inl h
      · exact Or.inr (Or.inl ⟨c, h⟩)
    | none =>
      simp only [hexec, List.mem_cons, List.not_mem_nil, or_false] at h
      rcases h with h | h | h
      · exact Or.inl h
      · exact Or.inr (Or.inl ⟨c, h⟩)
      · exact Or.inr (Or.inr h)

theorem mem_runTraceAux {env : Env} {pending : List String} {ev : Event}
    (h : ev ∈ runTraceAux env pending) :
    ∃ f, f ∈ pending ∧
      (ev = Event.readFile f ∨ (∃ c, ev = Event.executeSQL f c) ∨ ev = Event.insert f) := by
  induction pending with
  | nil => cases h
  | cons f rest ih =>
    rw [runTraceAux] at h
    cases hok : stepOk env f with
    | true =>
      rw [hok, if_pos rfl] at h
      rcases List.mem_append.mp h with h | h
      · exact ⟨f, List.mem_cons_self f rest, mem_okEvents h⟩
      · obtain ⟨g, hg, hor⟩ := ih h
        exact ⟨g, List.mem_cons_of_mem f hg, hor⟩
    | false =>
      rw [hok] at h
      simp only [Bool.false_eq_true, if_false] at h
      exact ⟨f, List.mem_cons_self f rest, mem_failEvents h⟩

theorem mem_runRowsAux {env : Env} {pending : List String} {r : PatchRow}
    (h : r ∈ runRowsAux env pending) :
    ∃ f, f ∈ pending ∧ r = appliedRow env f ∧ stepOk env f = true := by
  induction pending with
  | nil => cases h
  | cons f rest ih =>
    rw [runRowsAux] at h
    cases hok : stepOk env f with
    | true =>
      rw [hok, if_pos rfl] at h
      rcases List.mem_cons.mp h with h | h
      · exact ⟨f, List.mem_cons_self f rest, h, hok⟩
      · obtain ⟨g, hg, hr, hok'⟩ := ih h
        exact ⟨g, List.mem_cons_of_mem f hg, hr, hok'⟩
    | false =>
      rw [hok] at h
      simp only [Bool.false_eq_true, if_false] at h
      cases h

/-! ## The sort comparator agrees with the lexicographic order on strings -/

theorem lexLe_iff_not_lex (as : List Char) :
    ∀ bs, lexLe as bs = true ↔ ¬List.Lex (· < ·) bs as := by
  induction as with
  | nil =>
    intro bs
    simp only [lexLe]
    exact ⟨fun _ => List.Lex.not_nil_right _ _, fun _ => trivial⟩
  | cons a as ih =>
    intro bs
    cases bs with
    | nil =>
      refine ⟨fun h => by simp [lexLe] at h, fun h => (h List.Lex.nil).elim⟩
    | cons b bs =>
      rw [lexLe]
      rcases lt_trichotomy a b with hab | hab | hab
      · rw [if_pos hab]
        refine ⟨fun _ hlex => ?_, fun _ => rfl⟩
        cases hlex with
        | cons h' => exact absurd hab (lt_irrefl _)
        | rel h' => exact absurd hab (asymm h')
      · subst hab
        rw [if_neg (lt_irrefl a), if_neg (lt_irrefl a)]
        rw [List.Lex.cons_iff]
        exact ih bs
      · rw [if_neg (asymm hab), if_pos hab]
        exact ⟨fun h => Bool.noConfusion h, fun h => (h (List.Lex.rel hab)).elim⟩

/-- Comparator `strLe` is exactly `≤` in the lexicographic linear order on strings. -/
theorem strLe_iff (a b : String) : strLe a b = true ↔ a ≤ b := by
  rw [String.le_iff_toList_le, ← not_lt]
  show lexLe a.data b.data = true ↔ ¬List.Lex (· < ·) b.data a.data
  exact lexLe_iff_not_lex a.data b.data

instance strLeTotal : IsTotal String (fun a b => strLe a b = true) :=
  ⟨fun a b => by rw [strLe_iff, strLe_iff]; exact le_total a b⟩

instance strLeTrans : IsTrans String (fun a b => strLe a b = true) :=
  ⟨fun a b c h1 h2 => by
    rw [strLe_iff] at h1 h2 ⊢
    exact le_trans h1 h2⟩

theorem sorted_unappliedFilenames (listing : List String) (table : List PatchRow) :
    List.Sorted (· ≤ ·) (unappliedFilenames listing table) :=
  (List.sorted_insertionSort _ _).imp (fun h => (strLe_iff _ _).mp h)

theorem perm_unappliedFilenames (listing : List String) (table : List PatchRow) :
    (unappliedFilenames listing table).Perm
      (listing.filter fun filename =>
        !(appliedFilenames table).contains filename && matchesSql filename) :=
  List.perm_insertionSort _ _

/-! ## Case analysis of a whole invocation -/

theorem executePatches_createTable_fail (env : Env) (table : List PatchRow) (e : Err)
    (h : env.createTableErr = some e) :
    executePatches env table =
      ⟨⟨some e, none⟩, table, [Event.createTable true [filenameColumn, appliedColumn]]⟩ := by
  simp [executePatches, h]

theorem executePatches_readdir_fail (env : Env) (table : List PatchRow) (e : Err)
    (h1 : env.createTableErr = none) (h2 : env.readdirResult = .error e) :
    executePatches env table =
      ⟨⟨some e, none⟩, table,
       [Event.createTable true [filenameColumn, appliedColumn], Event.readdir]⟩ := by
  simp [executePatches, h1, h2]

theorem executePatches_select_fail (env : Env) (table : List PatchRow)
    (listing : List String) (e : Err) (h1 : env.createTableErr = none)
    (h2 : env.readdirResult = .ok listing) (h3 : env.selectErr = some e) :
    executePatches env table = ⟨⟨some e, none⟩, table, preTrace⟩ := by
  simp [executePatches, h1, h2, h3, preTrace]

theorem executePatches_cases (env : Env) (table : List PatchRow) :
    (∃ e, executePatches env table =
        ⟨⟨some e, none⟩, table, [Event.createTable true [filenameColumn, appliedColumn]]⟩) ∨
    (∃ e, executePatches env table =
        ⟨⟨some e, none⟩, table,
         [Event.createTable true [filenameColumn, appliedColumn], Event.readdir]⟩) ∨
    (∃ e, executePatches env table = ⟨⟨some e, none⟩, table, preTrace⟩) ∨
    (∃ listing, env.readdirResult = .ok listing ∧
      executePatches env table =
        patchLoop env (unappliedFilenames listing table) table [] preTrace) := by
  cases h1 : env.createTableErr with
  | some e => exact Or.inl ⟨e, executePatches_createTable_fail env table e h1⟩
  | none =>
    cases h2 : env.readdirResult with
    | error e => exact Or.inr (Or.inl ⟨e, executePatches_readdir_fail env table e h1 h2⟩)
    | ok listing =>
      cases h3 : env.selectErr with
      | some e =>
        exact Or.inr (Or.inr (Or.inl ⟨e, executePatches_select_fail env table listing e h1 h2 h3⟩))
      | none =>
        exact Or.inr (Or.inr (Or.inr ⟨listing, rfl, executePatches_eq_loop env table listing h1 h2 h3⟩))

theorem executePatches_ok_inv (env : Env) (table : List PatchRow)
    (h : (executePatches env table).result.error = none) :
    env.createTableErr = none ∧
      (∃ listing, env.readdirResult = .ok listing) ∧ env.selectErr = none := by
  cases h1 : env.createTableErr with
  | some e => rw [executePatches_createTable_fail env table e h1] at h; cases h
  | none =>
    cases h2 : env.readdirResult with
    | error e => rw [executePatches_readdir_fail env table e h1 h2] at h; cases h
    | ok listing =>
      cases h3 : env.selectErr with
      | some e => rw [executePatches_select_fail env table listing e h1 h2 h3] at h; cases h
      | none => exact ⟨rfl, ⟨listing, rfl⟩, rfl⟩

theorem executePatches_ok (env : Env) (table : List PatchRow) (listing : List String)
    (h1 : env.createTableErr = none) (h2 : env.readdirResult = .ok listing)
    (h3 : env.selectErr = none)
    (hall : ∀ f ∈ unappliedFilenames listing table, stepOk env f = true) :
    executePatches env table =
      ⟨⟨none, some (unappliedFilenames listing table)⟩,
       table ++ (unappliedFilenames listing table).map (appliedRow env),
       preTrace ++ (unappliedFilenames listing table).flatMap (okEvents env)⟩ := by
  rw [executePatches_eq_loop env table listing h1 h2 h3, patchLoop_ok env _ hall]
  simp

theorem executePatches_success_all_ok (env : Env) (table : List PatchRow)
    (listing : List String) (h1 : env.createTableErr = none)
    (h2 : env.readdirResult = .ok listing) (h3 : env.selectErr = none)
    (h : (executePatches env table).result.error = none) :
    ∀ f ∈ unappliedFilenames listing table, stepOk env f = true := by
  rw [executePatches_eq_loop env table listing h1 h2 h3] at h
  exact patchLoop_all_ok env _ table [] preTrace h

/-- The callback arguments of the loop, computed from the pending list
and the accumulator alone. -/
def runResultAux (env : Env) : List String → List String → CallbackArgs
  | [], newly => ⟨none, some newly⟩
  | f :: rest, newly =>
    if stepOk env f then runResultAux env rest (newly ++ [f])
    else ⟨some (stepErr env f), none⟩

theorem patchLoop_result_eq (env : Env) (pending : List String) (table : List PatchRow)
    (newly : List String) (tr : List Event) :
    (patchLoop env pending table newly tr).result = runResultAux env pending newly := by
  induction pending generalizing table newly tr with
  | nil => simp [patchLoop, runResultAux]
  | cons f rest ih =>
    cases hok : stepOk env f with
    | true => rw [patchLoop_ok_cons env f rest hok, ih, runResultAux, if_pos hok]
    | false =>
      rw [patchLoop_fail_cons env f rest hok, runResultAux, hok]
      simp only [Bool.false_eq_true, if_false]

theorem runResultAux_shape (env : Env) (pending : List String) (newly : List String) :
    (runResultAux env pending newly).filenames = none ∨
    (runResultAux env pending newly).error = none := by
  induction pending generalizing newly with
  | nil => exact Or.inr rfl
  | cons f rest ih =>
    cases hok : stepOk env f with
    | true => rw [runResultAux, if_pos hok]; exact ih _
    | false =>
      rw [runResultAux, hok]
      simp only [Bool.false_eq_true, if_false]
      exact Or.inl trivial

theorem appliedFilenames_append_map (env : Env) (table : List PatchRow) (U : List String) :
    appliedFilenames (table ++ U.map (appliedRow env)) = appliedFilenames table ++ U := by
  rw [appliedFilenames, List.map_append, List.map_map]
  have hcomp : ((fun x : PatchRow => x.filename) ∘ appliedRow env) = id := rfl
  rw [hcomp, List.map_id]
  rfl

theorem executePatches_table_extends (env : Env) (table : List PatchRow) :
    table <+: (executePatches env table).table := by
  rcases executePatches_cases env table with ⟨e, hrun⟩ | ⟨e, hrun⟩ | ⟨e, hrun⟩ |
    ⟨listing, h2, hrun⟩
  · rw [hrun]
  · rw [hrun]
  · rw [hrun]
  · rw [hrun, patchLoop_table_eq]
    exact List.prefix_append _ _

/-- The filename an event is about, when it is a per-file call. -/
def eventFilename : Event → Option String
  | .readFile f => some f
  | .executeSQL f _ => some f
  | .insert f => some f
  | _ => none

theorem eventFilename_okEvents {env : Env} {a : String} {ev : Event}
    (h : ev ∈ okEvents env a) : eventFilename ev = some a := by
  rcases mem_okEvents h with h' | ⟨c, h'⟩ | h' <;> subst h' <;> rfl

theorem eventFilename_failEvents {env : Env} {a : String} {ev : Event}
    (h : ev ∈ failEvents env a) : eventFilename ev = some a := by
  rcases mem_failEvents h with h' | ⟨c, h'⟩ | h' <;> subst h' <;> rfl

theorem eventFilename_preTrace {ev : Event} (h : ev ∈ preTrace) :
    eventFilename ev = none := by
  simp only [preTrace, List.mem_cons, List.not_mem_nil, or_false] at h
  rcases h with h | h | h <;> subst h <;> rfl

theorem insert_in_runTraceAux {env : Env} {pending : List String} {f : String}
    (h : Event.insert f ∈ runTraceAux env pending) :
    ∃ c, env.fileContents f = .ok c ∧ env.execSQL c = none ∧
      List.Sublist [Event.executeSQL f c, Event.insert f] (runTraceAux env pending) := by
  induction pending with
  | nil => cases h
  | cons g rest ih =>
    cases hok : stepOk env g with
    | false =>
      rw [runTraceAux, hok] at h
      simp only [Bool.false_eq_true, if_false] at h
      rw [runTraceAux, hok]
      simp only [Bool.false_eq_true, if_false]
      rw [failEvents] at h ⊢
      cases hc : env.fileContents g with
      | error e => simp [hc] at h
      | ok c =>
        simp only [hc] at h ⊢
        cases hexec : env.execSQL c with
        | some e => simp [hexec] at h
        | none =>
          simp only [hexec] at h ⊢
          simp only [List.mem_cons, List.not_mem_nil, or_false] at h
          rcases h with h | h | h
          · cases h
          · cases h
          · injection h with hfg
            subst hfg
            exact ⟨c, hc, hexec, List.Sublist.cons _ (List.Sublist.refl _)⟩
    | true =>
      rw [runTraceAux, hok, if_pos rfl] at h
      rw [runTraceAux, hok, if_pos rfl]
      rcases List.mem_append.mp h with h | h
      · simp only [okEvents, List.mem_cons, List.not_mem_nil, or_false] at h
        rcases h with h | h | h
        · cases h
        · cases h
        · injection h with hfg
          subst hfg
          rw [stepOk] at hok
          cases hc : env.fileContents f with
          | error e => rw [hc] at hok; cases hok
          | ok c =>
            rw [hc, Bool.and_eq_true, Option.isNone_iff_eq_none, Option.isNone_iff_eq_none] at hok
            obtain ⟨hexec, _⟩ := hok
            refine ⟨c, rfl, hexec, ?_⟩
            have hevents : okEvents env f =
                [Event.readFile f, Event.executeSQL f c, Event.insert f] := by
              simp [okEvents, contentsOf, hc]
            rw [hevents]
            exact (List.Sublist.cons _ (List.Sublist.refl _)).trans
              (List.sublist_append_left _ _)
      · obtain ⟨c, hc, hexec, hsub⟩ := ih h
        exact ⟨c, hc, hexec, hsub.trans (List.sublist_append_right _ _)⟩

/-- A concrete error-free environment used by the witnesses. -/
def envABC : Env :=
  { createTableErr := none
    readdirResult := .ok ["b.sql", "a.sql", "c.sql"]
    selectErr := none
    fileContents := fun f => .ok ("-- contents of " ++ f)
    execSQL := fun _ => none
    insertErr := fun _ => none
    timestamp := 7 }

/-- A directory mixing a `.sql` patch with files the filter must skip. -/
def envNotes : Env :=
  { createTableErr := none
    readdirResult := .ok ["notes.txt", "01.sql", "02-split-name.sql.disabled"]
    selectErr := none
    fileContents := fun f => .ok ("-- contents of " ++ f)
    execSQL := fun _ => none
    insertErr := fun _ => none
    timestamp := 3 }

/-! ## The claims -/

/-- C1: for every stable patches directory and bookkeeping table (a fixed
`Env`), invoking `executePatches` again immediately after a fully
successful run is a no-op: the second run calls the callback with no
error and an empty filename list, and its trace contains no `executeSQL`
call for any patch file. -/
theorem C1_idempotence (env : Env) (table : List PatchRow)
    (h : (executePatches env table).result.error = none) :
    (executePatches env (executePatches env table).table).result =
      ⟨none, some []⟩ ∧
    ∀ f c, Event.executeSQL f c ∉ (executePatches env (executePatches env table).table).trace := by
  obtain ⟨h1, ⟨listing, h2⟩, h3⟩ := executePatches_ok_inv env table h
  have hall := executePatches_success_all_ok env table listing h1 h2 h3 h
  have hrun1 := executePatches_ok env table listing h1 h2 h3 hall
  have happ2 : appliedFilenames (executePatches env table).table =
      appliedFilenames table ++ unappliedFilenames listing table := by
    rw [hrun1]
    show appliedFilenames
        (table ++ List.map (appliedRow env) (unappliedFilenames listing table)) = _
    rw [appliedFilenames, List.map_append, List.map_map]
    have hcomp : ((fun x : PatchRow => x.filename) ∘ appliedRow env) = id := rfl
    rw [hcomp, List.map_id]
    rfl
  have hfilter : (listing.filter fun filename =>
      !(appliedFilenames (executePatches env table).table).contains filename &&
        matchesSql filename) = [] := by
    rw [List.filter_eq_nil_iff]
    intro f hf hcond
    rw [Bool.and_eq_true] at hcond
    obtain ⟨hc1, hsql⟩ := hcond
    rw [Bool.not_eq_true'] at hc1
    have hmemU : f ∈ unappliedFilenames listing table := by
      refine mem_unappliedFilenames.mpr ⟨hf, ?_, hsql⟩
      intro hmem
      have hin : f ∈ appliedFilenames (executePatches env table).table := by
        rw [happ2]
        exact List.mem_append.mpr (Or.inl hmem)
      simp [hin] at hc1
    have hin : f ∈ appliedFilenames (executePatches env table).table := by
      rw [happ2]
      exact List.mem_append.mpr (Or.inr hmemU)
    simp [hin] at hc1
  have hempty : unappliedFilenames listing (executePatches env table).table = [] := by
    rw [unappliedFilenames, hfilter]
    rfl
  have hall2 : ∀ f ∈ unappliedFilenames listing (executePatches env table).table,
      stepOk env f = true := by
    rw [hempty]
    intro f hf
    cases hf
  have hrun2 := executePatches_ok env (executePatches env table).table listing h1 h2 h3 hall2
  rw [hempty] at hrun2
  refine ⟨by rw [hrun2], ?_⟩
  intro f c hmem
  rw [hrun2] at hmem
  simp [preTrace] at hmem

/-- C1 witness: a concrete successful first run after which the second
run is a no-op. -/
theorem C1_idempotence_witness :
    (executePatches envABC []).result.error = none ∧
    (executePatches envABC (executePatches envABC []).table).result = ⟨none, some []⟩ :=
  ⟨by decide, (C1_idempotence envABC [] (by decide)).1⟩

/-- C2: the unapplied filenames are applied one at a time in
lexicographically ascending filename order, and the returned list is
exactly the application order: on a successful run the callback list is
the sorted unapplied list, that list is sorted under the lexicographic
order on strings and is a permutation of the filtered directory entries,
and the trace is the three bookkeeping calls followed by the
read/execute/insert block of each file in exactly that order. -/
theorem C2_ordering (env : Env) (table : List PatchRow) (listing : List String)
    (h2 : env.readdirResult = .ok listing)
    (h : (executePatches env table).result.error = none) :
    (executePatches env table).result.filenames =
      some (unappliedFilenames listing table) ∧
    List.Sorted (· ≤ ·) (unappliedFilenames listing table) ∧
    (unappliedFilenames listing table).Perm
      (listing.filter fun filename =>
        !(appliedFilenames table).contains filename && matchesSql filename) ∧
    (executePatches env table).trace =
      preTrace ++ (unappliedFilenames listing table).flatMap (okEvents env) := by
  obtain ⟨h1, ⟨listing', h2'⟩, h3⟩ := executePatches_ok_inv env table h
  rw [h2] at h2'
  injection h2' with h2''
  subst h2''
  have hall := executePatches_success_all_ok env table listing h1 h2 h3 h
  have hrun := executePatches_ok env table listing h1 h2 h3 hall
  refine ⟨by rw [hrun], sorted_unappliedFilenames listing table,
    perm_unappliedFilenames listing table, by rw [hrun]⟩

/-- C2 witness: unapplied files `b.sql`, `a.sql`, `c.sql` are returned
(and hence applied) in the order `a.sql`, `b.sql`, `c.sql`. -/
theorem C2_ordering_witness :
    unappliedFilenames ["b.sql", "a.sql", "c.sql"] [] = ["a.sql", "b.sql", "c.sql"] ∧
    (executePatches envABC []).result.filenames =
      some (unappliedFilenames ["b.sql", "a.sql", "c.sql"] []) :=
  ⟨by decide, (C2_ordering envABC [] ["b.sql", "a.sql", "c.sql"] rfl (by decide)).1⟩

/-- C3: a directory entry is read (and its contents executed) only if its
filename ends with the case-sensitive suffix `.sql` and is not among the
filenames recorded in the bookkeeping table; conversely, on a successful
run every such entry is both read and executed.  Non-matching entries are
never read and never executed in any run. -/
theorem C3_filter (env : Env) (table : List PatchRow) (listing : List String) (entry : String)
    (h2 : env.readdirResult = .ok listing) :
    ((Event.readFile entry ∈ (executePatches env table).trace ∨
        (∃ c, Event.executeSQL entry c ∈ (executePatches env table).trace)) →
      matchesSql entry = true ∧ entry ∉ appliedFilenames table) ∧
    ((executePatches env table).result.error = none → entry ∈ listing →
      matchesSql entry = true → entry ∉ appliedFilenames table →
      Event.readFile entry ∈ (executePatches env table).trace ∧
        Event.executeSQL entry (contentsOf env entry) ∈ (executePatches env table).trace) := by
  constructor
  · intro hev
    rcases executePatches_cases env table with ⟨e, hrun⟩ | ⟨e, hrun⟩ | ⟨e, hrun⟩ |
      ⟨listing', h2', hrun⟩
    · rw [hrun] at hev
      rcases hev with hev | ⟨c, hev⟩ <;> simp at hev
    · rw [hrun] at hev
      rcases hev with hev | ⟨c, hev⟩ <;> simp at hev
    · rw [hrun] at hev
      rcases hev with hev | ⟨c, hev⟩ <;> simp [preTrace] at hev
    · rw [h2] at h2'
      injection h2' with h2''
      subst h2''
      rw [hrun, patchLoop_trace_eq] at hev
      have hentry : entry ∈ unappliedFilenames listing table := by
        rcases hev with hev | ⟨c, hev⟩
        · rcases List.mem_append.mp hev with hev | hev
          · simp [preTrace] at hev
          · obtain ⟨f, hfmem, hor⟩ := mem_runTraceAux hev
            rcases hor with hor | ⟨c, hor⟩ | hor
            · injection hor with he
              exact he ▸ hfmem
            · cases hor
            · cases hor
        · rcases List.mem_append.mp hev with hev | hev
          · simp [preTrace] at hev
          · obtain ⟨f, hfmem, hor⟩ := mem_runTraceAux hev
            rcases hor with hor | ⟨c', hor⟩ | hor
            · cases hor
            · injection hor with he
              exact he ▸ hfmem
            · cases hor
      obtain ⟨_, hnm, hsql⟩ := mem_unappliedFilenames.mp hentry
      exact ⟨hsql, hnm⟩
  · intro h hmem hsql hnm
    obtain ⟨h1, ⟨listing', h2'⟩, h3⟩ := executePatches_ok_inv env table h
    rw [h2] at h2'
    injection h2' with h2''
    subst h2''
    have hall := executePatches_success_all_ok env table listing h1 h2 h3 h
    have hrun := executePatches_ok env table listing h1 h2 h3 hall
    have hentry : entry ∈ unappliedFilenames listing table :=
      mem_unappliedFilenames.mpr ⟨hmem, hnm, hsql⟩
    rw [hrun]
    constructor
    · refine List.mem_append.mpr (Or.inr ?_)
      exact List.mem_flatMap.mpr ⟨entry, hentry, by simp [okEvents]⟩
    · refine List.mem_append.mpr (Or.inr ?_)
      exact List.mem_flatMap.mpr ⟨entry, hentry, by simp [okEvents]⟩

/-- An environment in which the SQL of `b.sql` fails while `a.sql` and
`c.sql` are fine (file contents are the filename itself). -/
def envFailB : Env :=
  { createTableErr := none
    readdirResult := .ok ["a.sql", "b.sql", "c.sql"]
    selectErr := none
    fileContents := fun f => .ok f
    execSQL := fun c => if c = "b.sql" then some "boom" else none
    insertErr := fun _ => none
    timestamp := 1 }

/-- C4: when any step (read, SQL execution, or bookkeeping insert) fails
for the k-th unapplied file, the run halts: the callback receives the
error (and no filename list), the bookkeeping table keeps exactly the
rows of the files before the k-th on top of its previous contents — none
for the k-th or any later file — and no later file is read, executed or
inserted. -/
theorem C4_halt_on_error (env : Env) (table : List PatchRow) (listing : List String)
    (pre : List String) (f : String) (post : List String)
    (h1 : env.createTableErr = none) (h2 : env.readdirResult = .ok listing)
    (h3 : env.selectErr = none)
    (hnd : (unappliedFilenames listing table).Nodup)
    (hsplit : unappliedFilenames listing table = pre ++ f :: post)
    (hpre : ∀ g ∈ pre, stepOk env g = true) (hf : stepOk env f = false) :
    (executePatches env table).result = ⟨some (stepErr env f), none⟩ ∧
    (executePatches env table).table = table ++ pre.map (appliedRow env) ∧
    ∀ g ∈ post,
      Event.readFile g ∉ (executePatches env table).trace ∧
      (∀ c, Event.executeSQL g c ∉ (executePatches env table).trace) ∧
      Event.insert g ∉ (executePatches env table).trace := by
  have hrun : executePatches env table =
      ⟨⟨some (stepErr env f), none⟩,
       table ++ pre.map (appliedRow env),
       preTrace ++ pre.flatMap (okEvents env) ++ failEvents env f⟩ := by
    rw [executePatches_eq_loop env table listing h1 h2 h3, hsplit,
      patchLoop_fail env pre f post hpre hf]
  rw [hsplit] at hnd
  obtain ⟨hnp, hnfp, hdisj⟩ := List.nodup_append.mp hnd
  refine ⟨by rw [hrun], by rw [hrun], ?_⟩
  have key : ∀ g ∈ post, ∀ ev ∈ (executePatches env table).trace,
      eventFilename ev ≠ some g := by
    intro g hg ev hmem hc
    rw [hrun] at hmem
    rcases List.mem_append.mp hmem with hmem | hmem
    · rcases List.mem_append.mp hmem with hmem | hmem
      · rw [eventFilename_preTrace hmem] at hc
        cases hc
      · obtain ⟨a, ha, hev⟩ := List.mem_flatMap.mp hmem
        rw [eventFilename_okEvents hev] at hc
        injection hc with hgc
        exact hdisj (hgc ▸ ha) (List.mem_cons_of_mem f hg)
    · rw [eventFilename_failEvents hmem] at hc
      injection hc with hgc
      exact (List.nodup_cons.mp hnfp).1 (hgc ▸ hg)
  intro g hg
  exact ⟨fun hmem => key g hg _ hmem rfl,
    fun c hmem => key g hg _ hmem rfl,
    fun hmem => key g hg _ hmem rfl⟩

/-- C4 witness: with `a.sql`, `b.sql`, `c.sql` unapplied and `b.sql`
failing, the run keeps `a.sql`'s bookkeeping row, surfaces the database
error, and `c.sql` is never touched. -/
theorem C4_halt_on_error_witness :
    (executePatches envFailB []).result = ⟨some "boom", none⟩ ∧
    (executePatches envFailB []).table = [⟨"a.sql", 1⟩] ∧
    Event.readFile "c.sql" ∉ (executePatches envFailB []).trace := by
  have h := C4_halt_on_error envFailB [] ["a.sql", "b.sql", "c.sql"]
    ["a.sql"] "b.sql" ["c.sql"] rfl rfl rfl (by decide) (by decide) (by decide) (by decide)
  refine ⟨h.1.trans (by decide), h.2.1.trans (by decide), (h.2.2 "c.sql" (by decide)).1⟩

/-- Environments with identical database failure `"boom"` on spots where
the failing patch file differs (`a.sql` versus `z.sql`). -/
def envExecFailA : Env :=
  { createTableErr := none
    readdirResult := .ok ["a.sql"]
    selectErr := none
    fileContents := fun _ => .ok "PATCH SQL A"
    execSQL := fun _ => some "boom"
    insertErr := fun _ => none
    timestamp := 1 }

def envExecFailZ : Env :=
  { createTableErr := none
    readdirResult := .ok ["z.sql"]
    selectErr := none
    fileContents := fun _ => .ok "PATCH SQL Z"
    execSQL := fun _ => some "boom"
    insertErr := fun _ => none
    timestamp := 1 }

/-- C5 counterexample: the error surfaced when patch SQL fails is the
underlying database error verbatim and does not carry the failing
filename: two runs whose failing patch files differ (`a.sql` in
`envExecFailA`, `z.sql` in `envExecFailZ`) surface the identical error
value `"boom"`, so the surfaced error cannot identify the failing file,
and no error-kind wrapper is added in either run. -/
theorem C5_error_kinds_counterexample :
    (executePatches envExecFailA []).result.error = some "boom" ∧
    (executePatches envExecFailZ []).result.error = some "boom" ∧
    (executePatches envExecFailA []).result.error =
      (executePatches envExecFailZ []).result.error := by
  refine ⟨by decide, by decide, by decide⟩

/-- C5 amended: each failure surfaces the underlying error of the failing
operation verbatim to the caller — the create-table error, the `readdir`
error, the `Select` error, or, for the first failing patch file, the
read/execute/insert error captured by `stepErr` — with no error-kind
wrapper and, in particular, no filename attached to an execution
failure. -/
theorem C5_error_propagation (env : Env) (table : List PatchRow) (e : Err) :
    (env.createTableErr = some e → (executePatches env table).result.error = some e) ∧
    (env.createTableErr = none → env.readdirResult = .error e →
      (executePatches env table).result.error = some e) ∧
    (∀ listing, env.createTableErr = none → env.readdirResult = .ok listing →
      env.selectErr = some e → (executePatches env table).result.error = some e) ∧
    (∀ listing f rest, env.createTableErr = none → env.readdirResult = .ok listing →
      env.selectErr = none → unappliedFilenames listing table = f :: rest →
      stepOk env f = false → stepErr env f = e →
      (executePatches env table).result.error = some e) := by
  refine ⟨?_, ?_, ?_, ?_⟩
  · intro h1
    rw [executePatches_createTable_fail env table e h1]
  · intro h1 h2
    rw [executePatches_readdir_fail env table e h1 h2]
  · intro listing h1 h2 h3
    rw [executePatches_select_fail env table listing e h1 h2 h3]
  · intro listing f rest h1 h2 h3 hsplit hf he
    rw [executePatches_eq_loop env table listing h1 h2 h3, hsplit,
      patchLoop_fail_cons env f rest hf, he]

/-- C5 amended witness: the failing execution of `a.sql`'s SQL surfaces
exactly the database error `"boom"`. -/
theorem C5_error_propagation_witness :
    (executePatches envExecFailA []).result.error = some "boom" :=
  (C5_error_propagation envExecFailA [] "boom").2.2.2 ["a.sql"] "a.sql" []
    rfl rfl rfl (by decide) (by decide) (by decide)

/-- C6: a bookkeeping row for a filename is inserted only after that
file's SQL execution has completed without error — every `Insert` call in
the trace is preceded by a successful `executeSQL` call on that file's
contents — and the rows present before the run are still there, in order,
at its end (the system never updates or deletes existing rows; it only
appends). -/
theorem C6_insert_only_after_execute (env : Env) (table : List PatchRow) :
    table <+: (executePatches env table).table ∧
    ∀ f, Event.insert f ∈ (executePatches env table).trace →
      ∃ c, env.fileContents f = .ok c ∧ env.execSQL c = none ∧
        List.Sublist [Event.executeSQL f c, Event.insert f]
          (executePatches env table).trace := by
  rcases executePatches_cases env table with ⟨e, hrun⟩ | ⟨e, hrun⟩ | ⟨e, hrun⟩ |
    ⟨listing, h2, hrun⟩
  · rw [hrun]
    exact ⟨List.prefix_refl table, fun f hmem => by simp at hmem⟩
  · rw [hrun]
    exact ⟨List.prefix_refl table, fun f hmem => by simp at hmem⟩
  · rw [hrun]
    exact ⟨List.prefix_refl table, fun f hmem => by simp [preTrace] at hmem⟩
  · rw [hrun, patchLoop_table_eq, patchLoop_trace_eq]
    refine ⟨List.prefix_append table _, ?_⟩
    intro f hmem
    rcases List.mem_append.mp hmem with hmem | hmem
    · simp [preTrace] at hmem
    · obtain ⟨c, hc, hexec, hsub⟩ := insert_in_runTraceAux hmem
      exact ⟨c, hc, hexec, hsub.trans (List.sublist_append_right _ _)⟩

/-- C6 witness: in a concrete successful run the initial table (empty) is
a prefix of the final one and the insert of `a.sql` follows a successful
execution of its contents. -/
theorem C6_insert_only_after_execute_witness :
    ([] : List PatchRow) <+: (executePatches envABC []).table ∧
    ∃ c, envABC.fileContents "a.sql" = .ok c ∧ envABC.execSQL c = none ∧
      List.Sublist [Event.executeSQL "a.sql" c, Event.insert "a.sql"]
        (executePatches envABC []).trace :=
  ⟨(C6_insert_only_after_execute envABC []).1,
   (C6_insert_only_after_execute envABC []).2 "a.sql" (by decide)⟩

/-- First invocation of the round trip: two fresh patch files. -/
def envTwo : Env :=
  { createTableErr := none
    readdirResult := .ok ["01.sql", "02.sql"]
    selectErr := none
    fileContents := fun f => .ok f
    execSQL := fun _ => none
    insertErr := fun _ => none
    timestamp := 4 }

/-- Second invocation of the round trip: same directory plus `03.sql`. -/
def envThree : Env :=
  { createTableErr := none
    readdirResult := .ok ["01.sql", "02.sql", "03.sql"]
    selectErr := none
    fileContents := fun f => .ok f
    execSQL := fun _ => none
    insertErr := fun _ => none
    timestamp := 6 }

/-- C7: round trip against the same bookkeeping table.  If no directory
file is recorded yet, a successful first invocation returns all the
`.sql` filenames of the directory; when the directory then gains exactly
one new `.sql` file and the second invocation runs on the resulting
table, it returns exactly that one new filename. -/
theorem C7_round_trip (env₁ env₂ : Env) (table : List PatchRow)
    (listing : List String) (g : String)
    (h2a : env₁.readdirResult = .ok listing)
    (hfresh : ∀ f ∈ listing, matchesSql f = true → f ∉ appliedFilenames table)
    (hsucc1 : (executePatches env₁ table).result.error = none)
    (h1b : env₂.createTableErr = none)
    (h2b : env₂.readdirResult = .ok (listing ++ [g]))
    (h3b : env₂.selectErr = none)
    (hg1 : matchesSql g = true) (hg2 : g ∉ listing)
    (hg3 : g ∉ appliedFilenames table)
    (hgok : stepOk env₂ g = true) :
    ((executePatches env₁ table).result.filenames =
        some (unappliedFilenames listing table) ∧
      (unappliedFilenames listing table).Perm (listing.filter matchesSql)) ∧
    (executePatches env₂ (executePatches env₁ table).table).result =
      ⟨none, some [g]⟩ := by
  obtain ⟨h1a, ⟨listing', h2'⟩, h3a⟩ := executePatches_ok_inv env₁ table hsucc1
  rw [h2a] at h2'
  injection h2' with h2''
  subst h2''
  have hall1 := executePatches_success_all_ok env₁ table listing h1a h2a h3a hsucc1
  have hrun1 := executePatches_ok env₁ table listing h1a h2a h3a hall1
  have hfiltereq : (listing.filter fun filename =>
      !(appliedFilenames table).contains filename && matchesSql filename) =
      listing.filter matchesSql := by
    apply List.filter_congr
    intro f hf
    cases hsql : matchesSql f with
    | true =>
      have hnm := hfresh f hf hsql
      have hcf : (appliedFilenames table).contains f = false := by
        simp [hnm]
      rw [hcf]
      rfl
    | false =>
      rw [Bool.and_false]
  constructor
  · exact ⟨by rw [hrun1], hfiltereq ▸ perm_unappliedFilenames listing table⟩
  · have htbl2 : appliedFilenames (executePatches env₁ table).table =
        appliedFilenames table ++ unappliedFilenames listing table := by
      rw [hrun1]
      exact appliedFilenames_append_map env₁ table _
    have hfilter2 : ((listing ++ [g]).filter fun filename =>
        !(appliedFilenames (executePatches env₁ table).table).contains filename &&
          matchesSql filename) = [g] := by
      rw [List.filter_append]
      have hleft : (listing.filter fun filename =>
          !(appliedFilenames (executePatches env₁ table).table).contains filename &&
            matchesSql filename) = [] := by
        rw [List.filter_eq_nil_iff]
        intro f hf hcond
        rw [Bool.and_eq_true] at hcond
        obtain ⟨hc1, hsql⟩ := hcond
        rw [Bool.not_eq_true'] at hc1
        have hin : f ∈ appliedFilenames (executePatches env₁ table).table := by
          rw [htbl2, List.mem_append]
          by_cases hmem : f ∈ appliedFilenames table
          · exact Or.inl hmem
          · exact Or.inr (mem_unappliedFilenames.mpr ⟨hf, hmem, hsql⟩)
        simp [hin] at hc1
      have hright : ([g].filter fun filename =>
          !(appliedFilenames (executePatches env₁ table).table).contains filename &&
            matchesSql filename) = [g] := by
        have hgnot : g ∉ appliedFilenames (executePatches env₁ table).table := by
          rw [htbl2, List.mem_append]
          rintro (hmem | hmem)
          · exact hg3 hmem
          · exact hg2 (mem_unappliedFilenames.mp hmem).1
        have hcont : (appliedFilenames (executePatches env₁ table).table).contains g =
            false := by
          simp [hgnot]
        simp [List.filter, hg1, decide_eq_false hgnot]
      rw [hleft, hright]
      rfl
    have hunap2 : unappliedFilenames (listing ++ [g])
        (executePatches env₁ table).table = [g] := by
      rw [unappliedFilenames, hfilter2]
      rfl
    have hall2 : ∀ f ∈ unappliedFilenames (listing ++ [g])
        (executePatches env₁ table).table, stepOk env₂ f = true := by
      rw [hunap2]
      intro f hf
      rcases List.mem_cons.mp hf with hf | hf
      · exact hf ▸ hgok
      · cases hf
    have hrun2 := executePatches_ok env₂ (executePatches env₁ table).table
      (listing ++ [g]) h1b h2b h3b hall2
    rw [hrun2, hunap2]

/-- C7 witness: directory `01.sql`, `02.sql` applied from scratch, then
`03.sql` is added; the second run returns exactly `["03.sql"]`. -/
theorem C7_round_trip_witness :
    (executePatches envTwo []).result.filenames = some ["01.sql", "02.sql"] ∧
    (executePatches envThree (executePatches envTwo []).table).result =
      ⟨none, some ["03.sql"]⟩ :=
  ⟨by decide,
   (C7_round_trip envTwo envThree [] ["01.sql", "02.sql"] "03.sql"
      rfl (by decide) (by decide) rfl rfl rfl (by decide) (by decide) (by decide)
      (by decide)).2⟩

/-- A bootstrap scenario: no bookkeeping table yet (modelled by the empty
row list) and two valid patch files listed out of order. -/
def envBootstrap : Env :=
  { createTableErr := none
    readdirResult := .ok ["02.sql", "01.sql"]
    selectErr := none
    fileContents := fun f => .ok f
    execSQL := fun _ => none
    insertErr := fun _ => none
    timestamp := 5 }

/-- C8: every invocation starts by issuing the create-table-if-not-exists
call for the bookkeeping table, whose column definitions are
`filename TEXT NOT NULL` and `applied TIMESTAMP NOT NULL DEFAULT
current_timestamp`; because the call carries the if-not-exists flag and
the run never rewrites existing rows, an already-existing table is left
as is; and against a not-yet-existing table (no rows) a run with two
valid patch files applies both in sorted order and returns
`["01.sql", "02.sql"]`. -/
theorem C8_create_table_first (env : Env) (table : List PatchRow) :
    (executePatches env table).trace.head? =
      some (Event.createTable true [filenameColumn, appliedColumn]) ∧
    filenameColumn = ⟨"filename", "TEXT", true, none⟩ ∧
    appliedColumn = ⟨"applied", "TIMESTAMP", true, some "current_timestamp"⟩ ∧
    table <+: (executePatches env table).table ∧
    (executePatches envBootstrap []).result = ⟨none, some ["01.sql", "02.sql"]⟩ ∧
    (executePatches envBootstrap []).table = [⟨"01.sql", 5⟩, ⟨"02.sql", 5⟩] := by
  refine ⟨?_, rfl, rfl, executePatches_table_extends env table, by decide, by decide⟩
  rcases executePatches_cases env table with ⟨e, hrun⟩ | ⟨e, hrun⟩ | ⟨e, hrun⟩ |
    ⟨listing, h2, hrun⟩
  · rw [hrun]
    rfl
  · rw [hrun]
    rfl
  · rw [hrun]
    rfl
  · rw [hrun, patchLoop_trace_eq]
    rfl

/-- C9: whenever `executePatches` fails, the callback receives only the
error: the `filenames` argument is absent even when earlier files of the
same run were executed and recorded. -/
theorem C9_error_no_filenames (env : Env) (table : List PatchRow) (e : Err)
    (h : (executePatches env table).result.error = some e) :
    (executePatches env table).result.filenames = none := by
  rcases executePatches_cases env table with ⟨e', hrun⟩ | ⟨e', hrun⟩ | ⟨e', hrun⟩ |
    ⟨listing, h2, hrun⟩
  · rw [hrun]
  · rw [hrun]
  · rw [hrun]
  · rw [hrun, patchLoop_result_eq] at h ⊢
    rcases runResultAux_shape env (unappliedFilenames listing table) [] with hs | hs
    · exact hs
    · rw [hs] at h
      cases h

/-- C9 witness: `b.sql` fails after `a.sql` was executed and recorded;
the callback gets the error and no filename list, although the trace
records the insert of `a.sql`. -/
theorem C9_error_no_filenames_witness :
    (executePatches envFailB []).result.filenames = none ∧
    Event.insert "a.sql" ∈ (executePatches envFailB []).trace :=
  ⟨C9_error_no_filenames envFailB [] "boom" (by decide), by decide⟩

/-- C10: rows of the bookkeeping table beyond their filenames are
irrelevant: two table states whose rows mention the same filenames among
the directory entries (regardless of duplicate rows, timestamps, or rows
for filenames no longer present in the directory) produce the same
callback result and the same trace — membership is tested by exact
string equality against the projected filename column, so duplicates
only skip the same filename and stale rows are ignored. -/
theorem C10_rows_by_filename (env : Env) (T T' : List PatchRow) (listing : List String)
    (h2 : env.readdirResult = .ok listing)
    (hmem : ∀ f ∈ listing, (f ∈ appliedFilenames T ↔ f ∈ appliedFilenames T')) :
    (executePatches env T).result = (executePatches env T').result ∧
    (executePatches env T).trace = (executePatches env T').trace := by
  have hunap : unappliedFilenames listing T = unappliedFilenames listing T' := by
    rw [unappliedFilenames, unappliedFilenames]
    congr 1
    apply List.filter_congr
    intro f hf
    have hcont : (appliedFilenames T).contains f = (appliedFilenames T').contains f := by
      by_cases hm : f ∈ appliedFilenames T
      · have hm' := (hmem f hf).mp hm
        simp [hm, hm']
      · have hm' : f ∉ appliedFilenames T' := fun hx => hm ((hmem f hf).mpr hx)
        simp [hm, hm']
    rw [hcont]
  cases h1 : env.createTableErr with
  | some e =>
    rw [executePatches_createTable_fail env T e h1,
      executePatches_createTable_fail env T' e h1]
    exact ⟨rfl, rfl⟩
  | none =>
    cases h3 : env.selectErr with
    | some e =>
      rw [executePatches_select_fail env T listing e h1 h2 h3,
        executePatches_select_fail env T' listing e h1 h2 h3]
      exact ⟨rfl, rfl⟩
    | none =>
      rw [executePatches_eq_loop env T listing h1 h2 h3,
        executePatches_eq_loop env T' listing h1 h2 h3, hunap]
      rw [patchLoop_result_eq, patchLoop_result_eq,
        patchLoop_trace_eq, patchLoop_trace_eq]
      exact ⟨rfl, rfl⟩

/-- A directory of `a.sql` and `b.sql` with error-free collaborators. -/
def envAB : Env :=
  { createTableErr := none
    readdirResult := .ok ["a.sql", "b.sql"]
    selectErr := none
    fileContents := fun f => .ok f
    execSQL := fun _ => none
    insertErr := fun _ => none
    timestamp := 2 }

/-- C10 witness: a table with a duplicated `a.sql` row and a stale
`gone.sql` row behaves exactly like the table with the single `a.sql`
row: the run applies just `b.sql` in both cases. -/
theorem C10_rows_by_filename_witness :
    (executePatches envAB [⟨"a.sql", 0⟩, ⟨"a.sql", 5⟩, ⟨"gone.sql", 9⟩]).result =
      (executePatches envAB [⟨"a.sql", 0⟩]).result ∧
    (executePatches envAB [⟨"a.sql", 0⟩]).result = ⟨none, some ["b.sql"]⟩ :=
  ⟨(C10_rows_by_filename envAB [⟨"a.sql", 0⟩, ⟨"a.sql", 5⟩, ⟨"gone.sql", 9⟩]
      [⟨"a.sql", 0⟩] ["a.sql", "b.sql"] rfl (by decide)).1,
   by decide⟩

/-- C3 witness: in a directory holding `notes.txt`, `01.sql` and
`02-split-name.sql.disabled`, the run reads `01.sql` and never reads the
two non-matching entries. -/
theorem C3_filter_witness :
    Event.readFile "01.sql" ∈ (executePatches envNotes []).trace ∧
    Event.readFile "notes.txt" ∉ (executePatches envNotes []).trace ∧
    Event.readFile "02-split-name.sql.disabled" ∉ (executePatches envNotes []).trace ∧
    matchesSql "02-split-name.sql.disabled" = false :=
  ⟨((C3_filter envNotes [] ["notes.txt", "01.sql", "02-split-name.sql.disabled"] "01.sql"
      rfl).2 (by decide) (by decide) (by decide) (by decide)).1,
   by decide, by decide, by decide⟩
